import Mathlib

/-!
Verification development for the `react-hook` repository: an in-memory,
key-addressed asynchronous cache with LRU eviction, request de-duplication,
cancellation and change notification, plus an auxiliary DOM resize-observation
utility.

The cache engine itself ships only as a type declaration file
(`src/unnamed/part_000` declares `createCache`, `Cache`, `CacheState` but not
their implementation), so the engine's behaviour is modelled from the
specification (sections 3, 4.1, 4.2, 4.3, 4.4 of the spec).  The
resize-observation utility (`src/packages/resize-observer/src/index.tsx`) is
present in full and is embedded directly from its source.

Asynchrony is embedded as a state machine: `load` performs the synchronous
part of the operation (de-duplication check, state transition to `loading`,
registration of the in-flight handle, resolver invocation bookkeeping) and
returns the in-flight ticket; the later settlement of the user resolver is a
separate `settle` event carrying the ticket and an `Except` result.  A
promise that "resolves with the new state and never rejects" is embedded as a
total function producing a `CacheState` (the error case is carried inside the
state, not as a rejection).
-/

namespace ReactHook

/-- Association-list lookup keyed by decidable equality: returns the value of
the first pair whose key matches. -/
def alookup {κ : Type} [DecidableEq κ] {α : Type} : List (κ × α) → κ → Option α
  | [], _ => none
  | (k1, v) :: rest, k => if k1 = k then some v else alookup rest k

/-- Association-list set: replaces the value of the first pair whose key
matches, or appends a fresh pair when the key is absent (`Map.set`
semantics). -/
def aset {κ : Type} [DecidableEq κ] {α : Type} : List (κ × α) → κ → α → List (κ × α)
  | [], k, v => [(k, v)]
  | (k1, v1) :: rest, k, v => if k1 = k then (k, v) :: rest else (k1, v1) :: aset rest k v

/-- Association-list delete: removes every pair whose key matches (`Map.delete`
semantics; on the duplicate-free lists the operations maintain this is the
removal of the unique pair for the key). -/
def adelete {κ : Type} [DecidableEq κ] {α : Type} : List (κ × α) → κ → List (κ × α)
  | [], _ => []
  | (k1, v1) :: rest, k => if k1 = k then adelete rest k else (k1, v1) :: adelete rest k

/-- Removes every occurrence of a key from a plain key list (LRU order
maintenance). -/
def lerase : List String → String → List String
  | [], _ => []
  | k1 :: rest, k => if k1 = k then lerase rest k else k1 :: lerase rest k

/-- Modelled from the spec (§3, §4.3 — the implementation behind the
`CacheState` declaration of `src/unnamed/part_000` is not in the sources):
per-key lifecycle status. -/
inductive CacheStatus : Type
  | loading
  | success
  | error
  | cancelled
  deriving DecidableEq, Repr

/-- Modelled from the spec (§3 CacheEntryState, matching the `CacheState`
declaration in `src/unnamed/part_000`): a status together with an optional
value and an optional error (`none` embeds TypeScript `undefined`). -/
structure CacheState (V E : Type) : Type where
  status : CacheStatus
  value : Option V
  error : Option E
  deriving DecidableEq, Repr

/-- Modelled from the spec (§3 Entry Record): the handle to an in-flight
asynchronous resolution — an identifying ticket plus the cooperative
cancellation flag consulted by the settlement handler. -/
structure InFlight : Type where
  id : Nat
  cancelled : Bool
  deriving DecidableEq, Repr

/-- Modelled from the spec (§3 Entry Record): the per-key record owned by the
Entry Store — current state plus the optional in-flight handle. -/
structure EntryRecord (V E : Type) : Type where
  state : CacheState V E
  inflight : Option InFlight
  deriving DecidableEq, Repr

/-- Modelled from the spec (§2, §4 — the implementation behind the `Cache`
declaration of `src/unnamed/part_000` is not in the sources): the whole cache
instance.  `entries` is the Entry Store, `lru` the LRU Tracker's recency
order (most-recently-used first), `nextId` the ticket counter for in-flight
handles, `resolverCalls` the log of user-resolver invocations (one key per
actual invocation — used to state de-duplication), and `subs` the
Subscription Bus registry (callbacks identified by numerals). -/
structure Cache (V E : Type) : Type where
  lruSize : Nat
  entries : List (String × EntryRecord V E)
  lru : List String
  nextId : Nat
  resolverCalls : List String
  subs : List (String × List Nat)
  deriving DecidableEq, Repr

/-- Modelled from the spec (§6 `createCache`): a fresh cache with the
configured capacity bound and no entries. -/
def createCache (V E : Type) (lruSize : Nat) : Cache V E :=
  ⟨lruSize, [], [], 0, [], []⟩

/-- Modelled from the spec (§4.3 `read`): synchronous lookup of the current
state, `none` when the key has no record. -/
def read {V E : Type} (c : Cache V E) (k : String) : Option (CacheState V E) :=
  (alookup c.entries k).map (fun e => e.state)

/-- Modelled from the spec (§4.2 `touch`): move the key to the
most-recently-used end (head) of the recency order. -/
def touch (lru : List String) (k : String) : List String :=
  k :: lerase lru k

/-- Modelled from the spec (§4.3): the ticket of the key's in-flight
resolution when one is active (present and not flagged cancelled). -/
def activeTicket {V E : Type} (c : Cache V E) (k : String) : Option Nat :=
  match alookup c.entries k with
  | none => none
  | some e =>
    match e.inflight with
    | none => none
    | some h => if h.cancelled then none else some h.id

/-- Modelled from the spec (§4.1 eviction side effect): after an insertion,
evict least-recently-used keys — skipping the just-inserted one — until the
store size is back within `lruSize`.  Evicted records are fully removed from
the store and the recency order. -/
def evict {V E : Type} (c : Cache V E) (keep : String) : Cache V E :=
  let n := c.entries.length - c.lruSize
  let victims := (c.lru.reverse.filter (fun x => x ≠ keep)).take n
  { c with
      entries := victims.foldl adelete c.entries
      lru := victims.foldl lerase c.lru }

/-- Modelled from the spec (§4.3 `load`, fresh branch): set the state to
`loading` preserving any previous value, promote the key, invoke the resolver
(logged in `resolverCalls`), register the in-flight handle, and run the
eviction side effect of the insertion.  Returns the new ticket. -/
def startLoad {V E : Type} (c : Cache V E) (k : String) : Cache V E × Nat :=
  let prev := (read c k).bind (fun s => s.value)
  let t := c.nextId
  let entry : EntryRecord V E := ⟨⟨CacheStatus.loading, prev, none⟩, some ⟨t, false⟩⟩
  (evict
    { c with
        entries := aset c.entries k entry
        lru := touch c.lru k
        nextId := t + 1
        resolverCalls := c.resolverCalls ++ [k] } k, t)

/-- Modelled from the spec (§4.3 `load`): when the key already has an active
in-flight resolution, return its ticket without touching anything (the caller
joins the pending operation — no duplicate resolver invocation); otherwise
start a fresh load. -/
def load {V E : Type} (c : Cache V E) (k : String) : Cache V E × Nat :=
  match activeTicket c k with
  | some t => (c, t)
  | none => startLoad c k

/-- Modelled from the spec (§4.3 settlement): the user resolver for the given
ticket settles with a result.  The effect applies only when the key's record
still holds that exact handle and its cancellation flag is clear; a success
stores `{success, result, no error}`, a rejection stores
`{error, previous value, the error}`; either way the in-flight handle is
cleared.  A late settlement after cancellation or eviction is ignored. -/
def settle {V E : Type} (c : Cache V E) (k : String) (t : Nat) (r : Except E V) : Cache V E :=
  match alookup c.entries k with
  | none => c
  | some e =>
    match e.inflight with
    | none => c
    | some h =>
      if h.cancelled then c
      else if h.id = t then
        let newState : CacheState V E :=
          match r with
          | Except.ok v => ⟨CacheStatus.success, some v, none⟩
          | Except.error err => ⟨CacheStatus.error, e.state.value, some err⟩
        { c with
            entries := aset c.entries k ⟨newState, none⟩
            lru := touch c.lru k }
      else c

/-- Modelled from the spec (§4.3): the state the promise returned by `load`
resolves with once the ticket's settlement has been processed — the new state
when the settlement applied, the state as of cancellation time when it was
suppressed.  The promise never rejects: the function is total in the result
and an error settlement is carried inside the state. -/
def settleResult {V E : Type} (c : Cache V E) (k : String) (t : Nat) (r : Except E V) :
    Option (CacheState V E) :=
  read (settle c k t r) k

/-- Modelled from the spec (§4.3 `cancel`): when the entry is currently
`loading`, replace its state by `{cancelled, last known value, no error}` and
flag the in-flight handle as cancelled so its eventual settlement is ignored;
otherwise do nothing. -/
def cancel {V E : Type} (c : Cache V E) (k : String) : Cache V E :=
  match alookup c.entries k with
  | none => c
  | some e =>
    if e.state.status = CacheStatus.loading then
      { c with
          entries := aset c.entries k
            ⟨⟨CacheStatus.cancelled, e.state.value, none⟩,
              e.inflight.map (fun h => ⟨h.id, true⟩)⟩ }
    else c

/-- Modelled from the spec (§4.3 `read` promotes LRU recency): the state of
the cache after a `read` of the key. -/
def readOp {V E : Type} (c : Cache V E) (k : String) : Cache V E :=
  match alookup c.entries k with
  | none => c
  | some _ => { c with lru := touch c.lru k }

/-- Modelled from the spec (§4.4 `subscribe`): register the callback for the
key; registering the identical callback again is a no-op. -/
def subscribe {V E : Type} (c : Cache V E) (k : String) (cb : Nat) : Cache V E :=
  let cur := (alookup c.subs k).getD []
  if cb ∈ cur then c
  else { c with subs := aset c.subs k (cur ++ [cb]) }

/-- Modelled from the spec (§4.4 `unsubscribe`): remove the callback from the
key's registry. -/
def unsubscribe {V E : Type} (c : Cache V E) (k : String) (cb : Nat) : Cache V E :=
  match alookup c.subs k with
  | none => c
  | some l => { c with subs := aset c.subs k (l.filter (fun x => x ≠ cb)) }

/-! ### Association-list lemmas -/

/-- Modelled from the spec (§6 public surface): one public cache operation,
used to quantify over arbitrary operation histories. -/
inductive Op (V E : Type) : Type
  | load (k : String)
  | settle (k : String) (t : Nat) (r : Except E V)
  | cancel (k : String)
  | read (k : String)
  | subscribe (k : String) (cb : Nat)
  | unsubscribe (k : String) (cb : Nat)

/-- Applies one public operation to the cache (the state-changing component
of each operation). -/
def applyOp {V E : Type} (c : Cache V E) : Op V E → Cache V E
  | Op.load k => (load c k).1
  | Op.settle k t r => settle c k t r
  | Op.cancel k => cancel c k
  | Op.read k => readOp c k
  | Op.subscribe k cb => subscribe c k cb
  | Op.unsubscribe k cb => unsubscribe c k cb

/-- Applies a whole operation history, oldest first. -/
def applyOps {V E : Type} (c : Cache V E) (ops : List (Op V E)) : Cache V E :=
  ops.foldl applyOp c

/-- The spec's per-state invariants (§3): success carries a value and no
error, error carries an error, loading and cancelled carry no error. -/
def StateWF {V E : Type} (s : CacheState V E) : Prop :=
  (s.status = CacheStatus.success → s.value.isSome ∧ s.error = none) ∧
  (s.status = CacheStatus.error → s.error.isSome) ∧
  ((s.status = CacheStatus.loading ∨ s.status = CacheStatus.cancelled) → s.error = none)

/-- Every entry stored in the cache has a well-formed state. -/
def CacheWF {V E : Type} (c : Cache V E) : Prop :=
  ∀ p ∈ c.entries, StateWF p.2.state

/-- Modelled from the spec (§3 LRU order, §4.1, §4.2): the structural
invariants tying the Entry Store to the LRU Tracker — duplicate-free keys,
duplicate-free recency order, every tracked key stored and every stored key
tracked. -/
def CacheInv {V E : Type} (c : Cache V E) : Prop :=
  (c.entries.map Prod.fst).Nodup ∧ c.lru.Nodup ∧
  (∀ k ∈ c.lru, (alookup c.entries k).isSome) ∧
  (∀ p ∈ c.entries, p.1 ∈ c.lru)

/-- The fresh `loading` entry registered by `startLoad`. -/
def loadingEntry {V E : Type} (c : Cache V E) (k : String) : EntryRecord V E :=
  ⟨⟨CacheStatus.loading, (read c k).bind (fun s => s.value), none⟩,
    some ⟨c.nextId, false⟩⟩

/-- A concrete full one-slot cache used to witness C5. -/
def cFull : Cache String String :=
  ⟨1, [("a", ⟨⟨CacheStatus.success, some "A", none⟩, none⟩)], ["a"], 1, ["a"], []⟩

/-- Embedded from `createResizeObserver`: the shared observer object — a
callback map keyed by observed target.  Targets and callbacks are
represented by numeric identities, matching JavaScript reference
identity. -/
structure ResizeObs : Type where
  callbacks : List (Nat × Nat)
  deriving DecidableEq, Repr

/-- Embedded from `createResizeObserver()`: a fresh observer with an empty
callback map. -/
def createResizeObserver : ResizeObs := ⟨[]⟩

/-- Embedded from `createResizeObserver().subscribe`:
`callbacks.set(target, callback)`. -/
def rsubscribe (o : ResizeObs) (t cb : Nat) : ResizeObs :=
  ⟨aset o.callbacks t cb⟩

/-- Embedded from `createResizeObserver().unsubscribe`:
`callbacks.delete(target)`. -/
def runsubscribe (o : ResizeObs) (t : Nat) : ResizeObs :=
  ⟨adelete o.callbacks t⟩

/-- Embedded from the `ResizeObserver` handler inside
`createResizeObserver`: one notification round over the delivered entries —
for each entry in order, the callback registered for its target (if any) is
invoked with it.  The result lists the dispatched (target, callback)
invocations; both branches of the source's length test dispatch
identically. -/
def notifyRound (o : ResizeObs) (entries : List Nat) : List (Nat × Nat) :=
  entries.filterMap (fun t => (alookup o.callbacks t).map (fun cb => (t, cb)))

/-- Embedded from the module-scoped `_resizeObserver` variable and
`getResizeObserver`: the module state is the optional already-constructed
instance; the getter constructs on first call and thereafter returns the
stored instance. -/
def getResizeObserver (s : Option ResizeObs) : ResizeObs × Option ResizeObs :=
  match s with
  | none => (createResizeObserver, some createResizeObserver)
  | some o => (o, some o)

/-- Embedded from `useResizeObserver`'s first layout effect: the per-effect
closure state — the `didUnsubscribe` flag captured by the wrapper callback,
together with the shared observer. -/
structure HookSub : Type where
  didUnsubscribe : Bool
  obs : ResizeObs
  deriving DecidableEq, Repr

/-- Embedded from the wrapper callback registered by `useResizeObserver`: it
checks the captured `didUnsubscribe` flag and delegates to the stored user
callback only when the flag is clear.  `some entry` means the user callback
receives the entry; `none` means the notification is dropped. -/
def wrapperInvoke (s : HookSub) (entry : Nat) : Option Nat :=
  if s.didUnsubscribe then none else some entry

/-- Embedded from the effect cleanup: set `didUnsubscribe` and remove the
target from the observer's callback map. -/
def effectCleanup (s : HookSub) (t : Nat) : HookSub :=
  ⟨true, runsubscribe s.obs t⟩

/-- Modelled from the spec (§4.4 notify, §7 SubscriberError — the bus
implementation is not under src/): run one notification round.  Each
registered callback identifier is interpreted by `impls`; a callback may
raise (`Except.error`).  The bus invokes every callback in registration
order regardless of earlier failures and collects each outcome (`none` for a
normal return, `some msg` for a swallowed failure). -/
def notifyRun {V E : Type} (s : CacheState V E)
    (impls : Nat → CacheState V E → Except String Unit) :
    List Nat → List (Option String)
  | [] => []
  | cb :: rest =>
    match impls cb s with
    | Except.ok _ => none :: notifyRun s impls rest
    | Except.error msg => some msg :: notifyRun s impls rest

/-- Modelled from the spec (§4.4): `notify(key)` looks up the key's current
state and subscriber list, runs the round, and returns the cache — unchanged,
failures are swallowed by the bus — together with the per-callback
outcomes. -/
def notifySubscribers {V E : Type} (c : Cache V E) (k : String)
    (impls : Nat → CacheState V E → Except String Unit) :
    Cache V E × List (Option String) :=
  match read c k with
  | none => (c, [])
  | some s => (c, notifyRun s impls ((alookup c.subs k).getD []))

/-- A concrete cache with one loading entry and one subscriber, used to
witness C8. -/
def busDemo : Cache String String :=
  subscribe ((load (createCache String String 2) "a").1) "a" 4

/-- Callback table for the C8 witness: the registered callback raises. -/
def busImpls : Nat → CacheState String String → Except String Unit :=
  fun cb _ => if cb = 4 then Except.error "boom" else Except.ok ()

theorem alookup_aset_self {κ : Type} [DecidableEq κ] {α : Type}
    (es : List (κ × α)) (k : κ) (v : α) : alookup (aset es k v) k = some v := by
  induction es with
  | nil => simp [aset, alookup]
  | cons p rest ih =>
    obtain ⟨k1, v1⟩ := p
    by_cases h : k1 = k
    · simp [aset, h, alookup]
    · simp [aset, h, alookup, ih]

theorem alookup_aset_ne {κ : Type} [DecidableEq κ] {α : Type}
    (es : List (κ × α)) (k k2 : κ) (v : α) (hne : k2 ≠ k) :
    alookup (aset es k v) k2 = alookup es k2 := by
  have hx : ¬(k = k2) := fun he => hne he.symm
  induction es with
  | nil => simp [aset, alookup, hx]
  | cons p rest ih =>
    obtain ⟨k1, v1⟩ := p
    by_cases h : k1 = k
    · subst h
      simp [aset, alookup, hx]
    · simp [aset, h, alookup, ih]

theorem alookup_adelete_self {κ : Type} [DecidableEq κ] {α : Type}
    (es : List (κ × α)) (k : κ) : alookup (adelete es k) k = none := by
  induction es with
  | nil => simp [adelete, alookup]
  | cons p rest ih =>
    obtain ⟨k1, v1⟩ := p
    by_cases h : k1 = k
    · simp [adelete, h, ih]
    · simp [adelete, h, alookup, ih]

theorem alookup_adelete_ne {κ : Type} [DecidableEq κ] {α : Type}
    (es : List (κ × α)) (k k2 : κ) (hne : k2 ≠ k) :
    alookup (adelete es k) k2 = alookup es k2 := by
  have hx : ¬(k = k2) := fun he => hne he.symm
  induction es with
  | nil => simp [adelete]
  | cons p rest ih =>
    obtain ⟨k1, v1⟩ := p
    by_cases h : k1 = k
    · subst h
      simp [adelete, alookup, hx, ih]
    · simp [adelete, h, alookup, ih]

theorem alookup_foldl_adelete_not_mem {κ : Type} [DecidableEq κ] {α : Type}
    (vs : List κ) (es : List (κ × α)) (k : κ) (h : k ∉ vs) :
    alookup (vs.foldl adelete es) k = alookup es k := by
  induction vs generalizing es with
  | nil => rfl
  | cons v rest ih =>
    have h1 : k ≠ v := fun he => h (he ▸ List.mem_cons_self v rest)
    have h2 : k ∉ rest := fun hm => h (List.mem_cons_of_mem v hm)
    simp only [List.foldl_cons]
    rw [ih (adelete es v) h2, alookup_adelete_ne es v k h1]

theorem mem_aset {κ : Type} [DecidableEq κ] {α : Type}
    (es : List (κ × α)) (k : κ) (v : α) (p : κ × α) (h : p ∈ aset es k v) :
    p = (k, v) ∨ p ∈ es := by
  induction es with
  | nil =>
    simp [aset] at h
    exact Or.inl h
  | cons q rest ih =>
    obtain ⟨k1, v1⟩ := q
    by_cases he : k1 = k
    · simp only [aset, if_pos he, List.mem_cons] at h
      rcases h with h | h
      · exact Or.inl h
      · exact Or.inr (List.mem_cons_of_mem _ h)
    · simp only [aset, if_neg he, List.mem_cons] at h
      rcases h with h | h
      · exact Or.inr (h ▸ List.mem_cons_self _ _)
      · rcases ih h with h2 | h2
        · exact Or.inl h2
        · exact Or.inr (List.mem_cons_of_mem _ h2)

theorem mem_adelete {κ : Type} [DecidableEq κ] {α : Type}
    (es : List (κ × α)) (k : κ) (p : κ × α) (h : p ∈ adelete es k) : p ∈ es := by
  induction es with
  | nil => simp [adelete] at h
  | cons q rest ih =>
    obtain ⟨k1, v1⟩ := q
    by_cases he : k1 = k
    · simp only [adelete, if_pos he] at h
      exact List.mem_cons_of_mem _ (ih h)
    · simp only [adelete, if_neg he, List.mem_cons] at h
      rcases h with h | h
      · exact h ▸ List.mem_cons_self _ _
      · exact List.mem_cons_of_mem _ (ih h)

theorem mem_foldl_adelete {κ : Type} [DecidableEq κ] {α : Type}
    (vs : List κ) (es : List (κ × α)) (p : κ × α) (h : p ∈ vs.foldl adelete es) :
    p ∈ es := by
  induction vs generalizing es with
  | nil => exact h
  | cons v rest ih => exact mem_adelete es v p (ih (adelete es v) h)

theorem alookup_mem {κ : Type} [DecidableEq κ] {α : Type}
    (es : List (κ × α)) (k : κ) (v : α) (h : alookup es k = some v) : (k, v) ∈ es := by
  induction es with
  | nil => simp [alookup] at h
  | cons q rest ih =>
    obtain ⟨k1, v1⟩ := q
    by_cases he : k1 = k
    · simp only [alookup, if_pos he] at h
      cases h
      exact he ▸ List.mem_cons_self _ _
    · simp only [alookup, if_neg he] at h
      exact List.mem_cons_of_mem _ (ih h)

theorem aset_of_alookup_none {κ : Type} [DecidableEq κ] {α : Type}
    (es : List (κ × α)) (k : κ) (v : α) (h : alookup es k = none) :
    aset es k v = es ++ [(k, v)] := by
  induction es with
  | nil => rfl
  | cons q rest ih =>
    obtain ⟨k1, v1⟩ := q
    by_cases he : k1 = k
    · simp [alookup, he] at h
    · simp only [alookup, if_neg he] at h
      simp [aset, he, ih h]

theorem adelete_of_alookup_none {κ : Type} [DecidableEq κ] {α : Type}
    (es : List (κ × α)) (k : κ) (h : alookup es k = none) : adelete es k = es := by
  induction es with
  | nil => rfl
  | cons q rest ih =>
    obtain ⟨k1, v1⟩ := q
    by_cases he : k1 = k
    · simp [alookup, he] at h
    · simp only [alookup, if_neg he] at h
      simp [adelete, he, ih h]

theorem lerase_of_not_mem (l : List String) (k : String) (h : k ∉ l) :
    lerase l k = l := by
  induction l with
  | nil => rfl
  | cons x rest ih =>
    have h1 : x ≠ k := fun he => h (he ▸ List.mem_cons_self x rest)
    have h2 : k ∉ rest := fun hm => h (List.mem_cons_of_mem x hm)
    simp [lerase, h1, ih h2]

theorem lerase_eq_filter (l : List String) (k : String) :
    lerase l k = l.filter (fun x => x ≠ k) := by
  induction l with
  | nil => rfl
  | cons y rest ih =>
    by_cases he : y = k
    · subst he
      simp [lerase, List.filter_cons, ih]
    · simp [lerase, he, List.filter_cons, ih]

theorem mem_lerase_iff (l : List String) (k x : String) :
    x ∈ lerase l k ↔ x ∈ l ∧ x ≠ k := by
  rw [lerase_eq_filter]
  simp [List.mem_filter]

/-! ### C1: load then successful settlement yields the success state -/

theorem not_mem_evict_victims {V E : Type} (c : Cache V E) (keep : String) (n : Nat) :
    keep ∉ (c.lru.reverse.filter (fun x => x ≠ keep)).take n := by
  intro hmem
  have h1 : keep ∈ c.lru.reverse.filter (fun x => x ≠ keep) :=
    List.take_subset n _ hmem
  have h2 := List.of_mem_filter h1
  simp at h2

theorem alookup_evict_keep {V E : Type} (c : Cache V E) (keep : String) :
    alookup (evict c keep).entries keep = alookup c.entries keep := by
  unfold evict
  exact alookup_foldl_adelete_not_mem _ _ _ (not_mem_evict_victims c keep _)

theorem startLoad_lookup {V E : Type} (c : Cache V E) (k : String) :
    alookup ((startLoad c k).1).entries k =
      some ⟨⟨CacheStatus.loading, (read c k).bind (fun s => s.value), none⟩,
        some ⟨c.nextId, false⟩⟩ := by
  unfold startLoad
  simp only
  rw [alookup_evict_keep]
  exact alookup_aset_self _ _ _

theorem startLoad_ticket {V E : Type} (c : Cache V E) (k : String) :
    (startLoad c k).2 = c.nextId := rfl

/-- C1: For every key `k` and every resolver that succeeds with value `v` for
`k`, after `load(k)` resolves — i.e. once the settlement of the ticket
returned by `load` has been applied — `read(k)` returns the state with status
`success`, value `v` and no error. -/
theorem load_settle_success {V E : Type} (c : Cache V E) (k : String) (v : V) :
    read (settle (load c k).1 k (load c k).2 (Except.ok v)) k =
      some ⟨CacheStatus.success, some v, none⟩ := by
  unfold load
  cases hT : activeTicket c k with
  | some t =>
    unfold activeTicket at hT
    cases hE : alookup c.entries k with
    | none => simp [hE] at hT
    | some e =>
      cases hI : e.inflight with
      | none => simp [hE, hI] at hT
      | some h =>
        by_cases hC : h.cancelled
        · simp [hE, hI, hC] at hT
        · simp only [hE, hI, hC, if_false, Bool.false_eq_true, Option.some.injEq] at hT
          subst hT
          simp [settle, hE, hI, hC, read, alookup_aset_self]
  | none =>
    have hkeep := startLoad_lookup c k
    simp [settle, hkeep, startLoad_ticket, read, alookup_aset_self]

/-! ### C2: concurrent loads de-duplicate the resolver invocation -/

theorem startLoad_resolverCalls {V E : Type} (c : Cache V E) (k : String) :
    ((startLoad c k).1).resolverCalls = c.resolverCalls ++ [k] := rfl

theorem activeTicket_startLoad {V E : Type} (c : Cache V E) (k : String) :
    activeTicket ((startLoad c k).1) k = some c.nextId := by
  unfold activeTicket
  rw [startLoad_lookup]
  simp

/-- C2: two calls `load(k)` issued before either settles invoke the
user-supplied resolver exactly once for `k` (the invocation log grows by one
entry for `k` across both calls), and both calls are tied to the same
in-flight resolution (they return the same ticket, so they settle in
lockstep). -/
theorem load_dedup {V E : Type} (c : Cache V E) (k : String)
    (h : activeTicket c k = none) :
    ((load ((load c k).1) k).1).resolverCalls.count k = c.resolverCalls.count k + 1 ∧
    (load ((load c k).1) k).2 = (load c k).2 := by
  have h1 : load c k = startLoad c k := by
    unfold load
    rw [h]
  have h3 : load ((startLoad c k).1) k = ((startLoad c k).1, c.nextId) := by
    unfold load
    rw [activeTicket_startLoad]
  rw [h1, h3]
  constructor
  · rw [startLoad_resolverCalls, List.count_append]
    simp
  · rw [startLoad_ticket]

/-- Witness for C2 at a concrete cache: a fresh two-slot cache with no
in-flight resolution for the key. -/
theorem load_dedup_witness :
    ((load ((load (createCache String String 2) "a").1) "a").1).resolverCalls.count "a" =
      (createCache String String 2).resolverCalls.count "a" + 1 ∧
    (load ((load (createCache String String 2) "a").1) "a").2 =
      (load (createCache String String 2) "a").2 :=
  load_dedup (createCache String String 2) "a" (by decide)

/-! ### C3: cancellation of a loading entry -/

theorem settle_of_activeTicket_none {V E : Type} (c : Cache V E) (k : String) (t : Nat)
    (r : Except E V) (h : activeTicket c k = none) : settle c k t r = c := by
  cases hE : alookup c.entries k with
  | none => simp [settle, hE]
  | some e =>
    cases hI : e.inflight with
    | none => simp [settle, hE, hI]
    | some hf =>
      by_cases hC : hf.cancelled
      · simp [settle, hE, hI, hC]
      · exfalso
        unfold activeTicket at h
        rw [hE] at h
        simp [hI, hC] at h

theorem cancel_of_loading {V E : Type} (c : Cache V E) (k : String)
    (e : EntryRecord V E) (hE : alookup c.entries k = some e)
    (hl : e.state.status = CacheStatus.loading) :
    cancel c k =
      { c with
          entries := aset c.entries k
            ⟨⟨CacheStatus.cancelled, e.state.value, none⟩,
              e.inflight.map (fun x => ⟨x.id, true⟩)⟩ } := by
  simp [cancel, hE, hl]

theorem read_cancel_of_loading {V E : Type} (c : Cache V E) (k : String)
    (e : EntryRecord V E) (hE : alookup c.entries k = some e)
    (hl : e.state.status = CacheStatus.loading) :
    read (cancel c k) k = some ⟨CacheStatus.cancelled, e.state.value, none⟩ := by
  rw [cancel_of_loading c k e hE hl, read]
  simp [alookup_aset_self]

theorem activeTicket_cancel_of_loading {V E : Type} (c : Cache V E) (k : String)
    (e : EntryRecord V E) (hE : alookup c.entries k = some e)
    (hl : e.state.status = CacheStatus.loading) :
    activeTicket (cancel c k) k = none := by
  rw [cancel_of_loading c k e hE hl]
  cases hI : e.inflight with
  | none => simp [activeTicket, alookup_aset_self, hI]
  | some hf => simp [activeTicket, alookup_aset_self, hI]

/-- C3: if `cancel(k)` is called while `k`'s entry is `loading`, `read(k)`
subsequently has status `cancelled` with the last known value preserved and
the error cleared, and any later settlement of the pending resolver for `k`
leaves `read(k)` unchanged; `cancel` on a non-loading or absent entry
(including one whose settlement has already propagated) is a no-op. -/
theorem cancel_spec {V E : Type} (c : Cache V E) (k : String) :
    (∀ s, read c k = some s → s.status = CacheStatus.loading →
        read (cancel c k) k = some ⟨CacheStatus.cancelled, s.value, none⟩ ∧
        ∀ t r, read (settle (cancel c k) k t r) k = read (cancel c k) k) ∧
    ((∀ s, read c k = some s → s.status ≠ CacheStatus.loading) → cancel c k = c) := by
  constructor
  · intro s hs hl
    obtain ⟨e, hE, hes⟩ : ∃ e, alookup c.entries k = some e ∧ e.state = s := by
      rw [read] at hs
      cases hE : alookup c.entries k with
      | none =>
        rw [hE] at hs
        cases hs
      | some e =>
        rw [hE] at hs
        simp at hs
        exact ⟨e, rfl, hs⟩
    have hl2 : e.state.status = CacheStatus.loading := by rw [hes, hl]
    constructor
    · rw [read_cancel_of_loading c k e hE hl2, hes]
    · intro t r
      rw [settle_of_activeTicket_none _ _ _ _ (activeTicket_cancel_of_loading c k e hE hl2)]
  · intro hns
    cases hE : alookup c.entries k with
    | none => simp [cancel, hE]
    | some e =>
      have hne := hns e.state (by rw [read, hE]; rfl)
      simp [cancel, hE, hne]

/-- Witness for C3 at a concrete cache: a key in `loading` state obtained by
an actual `load` is cancelled. -/
theorem cancel_spec_witness :
    read (cancel ((load (createCache String String 2) "a").1) "a") "a" =
      some ⟨CacheStatus.cancelled, none, none⟩ :=
  ((cancel_spec ((load (createCache String String 2) "a").1) "a").1
    ⟨CacheStatus.loading, none, none⟩ (by decide) (by decide)).1

/-! ### C4: resolver rejection is carried in the state, never as a rejection -/

/-- C4: for every key `k` and resolver that rejects with error `e` for `k`,
the promise returned by `load(k)` does not reject: the settlement result is a
state (the error is carried inside it) whose status is `error`, whose error
field is `e`, and whose value is the previous value if any. -/
theorem load_settle_error {V E : Type} (c : Cache V E) (k : String) (err : E) :
    settleResult (load c k).1 k (load c k).2 (Except.error err) =
      some ⟨CacheStatus.error, (read c k).bind (fun s => s.value), some err⟩ := by
  unfold settleResult load
  cases hT : activeTicket c k with
  | some t =>
    unfold activeTicket at hT
    cases hE : alookup c.entries k with
    | none => simp [hE] at hT
    | some e =>
      cases hI : e.inflight with
      | none => simp [hE, hI] at hT
      | some h =>
        by_cases hC : h.cancelled
        · simp [hE, hI, hC] at hT
        · simp only [hE, hI, hC, if_false, Bool.false_eq_true, Option.some.injEq] at hT
          subst hT
          simp [settle, hE, hI, hC, read, alookup_aset_self]
  | none =>
    have hkeep := startLoad_lookup c k
    simp [settle, hkeep, startLoad_ticket, read, alookup_aset_self]

/-! ### C6: well-formedness of every stored state -/

theorem stateWF_loading {V E : Type} (v : Option V) :
    StateWF (⟨CacheStatus.loading, v, none⟩ : CacheState V E) := by
  refine ⟨?_, ?_, ?_⟩ <;> intro h <;> simp_all

theorem stateWF_success {V E : Type} (v : V) :
    StateWF (⟨CacheStatus.success, some v, none⟩ : CacheState V E) := by
  refine ⟨?_, ?_, ?_⟩ <;> intro h <;> simp_all

theorem stateWF_error {V E : Type} (v : Option V) (err : E) :
    StateWF (⟨CacheStatus.error, v, some err⟩ : CacheState V E) := by
  refine ⟨?_, ?_, ?_⟩ <;> intro h <;> simp_all

theorem stateWF_cancelled {V E : Type} (v : Option V) :
    StateWF (⟨CacheStatus.cancelled, v, none⟩ : CacheState V E) := by
  refine ⟨?_, ?_, ?_⟩ <;> intro h <;> simp_all

theorem readOp_entries {V E : Type} (c : Cache V E) (k : String) :
    (readOp c k).entries = c.entries := by
  cases hE : alookup c.entries k with
  | none => simp [readOp, hE]
  | some e => simp [readOp, hE]

theorem subscribe_entries {V E : Type} (c : Cache V E) (k : String) (cb : Nat) :
    (subscribe c k cb).entries = c.entries := by
  unfold subscribe
  by_cases hm : cb ∈ (alookup c.subs k).getD []
  · simp [hm]
  · simp [hm]

theorem unsubscribe_entries {V E : Type} (c : Cache V E) (k : String) (cb : Nat) :
    (unsubscribe c k cb).entries = c.entries := by
  cases hS : alookup c.subs k with
  | none => simp [unsubscribe, hS]
  | some l => simp [unsubscribe, hS]

theorem cacheWF_applyOp {V E : Type} (c : Cache V E) (op : Op V E) (h : CacheWF c) :
    CacheWF (applyOp c op) := by
  cases op with
  | load k =>
    show CacheWF (load c k).1
    unfold load
    cases hT : activeTicket c k with
    | some t => exact h
    | none =>
      intro p hp
      have hp2 : p ∈ aset c.entries k
          ⟨⟨CacheStatus.loading, (read c k).bind (fun s => s.value), none⟩,
            some ⟨c.nextId, false⟩⟩ := mem_foldl_adelete _ _ _ hp
      rcases mem_aset _ _ _ _ hp2 with h1 | h1
      · rw [h1]
        exact stateWF_loading _
      · exact h p h1
  | settle k t r =>
    show CacheWF (settle c k t r)
    cases hE : alookup c.entries k with
    | none => simpa [settle, hE] using h
    | some e =>
      cases hI : e.inflight with
      | none => simpa [settle, hE, hI] using h
      | some hf =>
        by_cases hC : hf.cancelled
        · simpa [settle, hE, hI, hC] using h
        · by_cases hid : hf.id = t
          · cases r with
            | ok v =>
              have hs : settle c k t (Except.ok v) =
                  { c with
                      entries := aset c.entries k
                        ⟨⟨CacheStatus.success, some v, none⟩, none⟩
                      lru := touch c.lru k } := by
                simp [settle, hE, hI, hC, hid]
              rw [hs]
              intro p hp
              rcases mem_aset _ _ _ _ hp with h1 | h1
              · rw [h1]
                exact stateWF_success _
              · exact h p h1
            | error err =>
              have hs : settle c k t (Except.error err) =
                  { c with
                      entries := aset c.entries k
                        ⟨⟨CacheStatus.error, e.state.value, some err⟩, none⟩
                      lru := touch c.lru k } := by
                simp [settle, hE, hI, hC, hid]
              rw [hs]
              intro p hp
              rcases mem_aset _ _ _ _ hp with h1 | h1
              · rw [h1]
                exact stateWF_error _ _
              · exact h p h1
          · simpa [settle, hE, hI, hC, hid] using h
  | cancel k =>
    show CacheWF (cancel c k)
    cases hE : alookup c.entries k with
    | none => simpa [cancel, hE] using h
    | some e =>
      by_cases hl : e.state.status = CacheStatus.loading
      · rw [cancel_of_loading c k e hE hl]
        intro p hp
        rcases mem_aset _ _ _ _ hp with h1 | h1
        · rw [h1]
          exact stateWF_cancelled _
        · exact h p h1
      · simpa [cancel, hE, hl] using h
  | read k =>
    show CacheWF (readOp c k)
    intro p hp
    rw [readOp_entries] at hp
    exact h p hp
  | subscribe k cb =>
    show CacheWF (subscribe c k cb)
    intro p hp
    rw [subscribe_entries] at hp
    exact h p hp
  | unsubscribe k cb =>
    show CacheWF (unsubscribe c k cb)
    intro p hp
    rw [unsubscribe_entries] at hp
    exact h p hp

theorem cacheWF_applyOps {V E : Type} (c : Cache V E) (ops : List (Op V E))
    (h : CacheWF c) : CacheWF (applyOps c ops) := by
  induction ops generalizing c with
  | nil => exact h
  | cons op rest ih => exact ih (applyOp c op) (cacheWF_applyOp c op h)

/-- C6: every `CacheState` readable after an arbitrary history of public
operations on a fresh cache satisfies the invariants — `success` implies
value present and error absent, `error` implies error present, `loading` and
`cancelled` imply error absent. -/
theorem cacheState_invariant {V E : Type} (n : Nat) (ops : List (Op V E)) (k : String)
    (s : CacheState V E) (h : read (applyOps (createCache V E n) ops) k = some s) :
    (s.status = CacheStatus.success → s.value.isSome ∧ s.error = none) ∧
    (s.status = CacheStatus.error → s.error.isSome) ∧
    ((s.status = CacheStatus.loading ∨ s.status = CacheStatus.cancelled) →
      s.error = none) := by
  have hwf : CacheWF (applyOps (createCache V E n) ops) := by
    apply cacheWF_applyOps
    intro p hp
    simp [createCache] at hp
  rw [read] at h
  cases hE : alookup (applyOps (createCache V E n) ops).entries k with
  | none =>
    rw [hE] at h
    cases h
  | some e =>
    rw [hE] at h
    simp at h
    have hm := alookup_mem _ _ _ hE
    have := hwf (k, e) hm
    rw [h] at this
    exact this

/-- Witness for C6 at a concrete history: the loading state produced by a
single `load` on a fresh cache. -/
theorem cacheState_invariant_witness :
    ((⟨CacheStatus.loading, none, none⟩ : CacheState String String).status =
        CacheStatus.success →
      (⟨CacheStatus.loading, none, none⟩ : CacheState String String).value.isSome ∧
      (⟨CacheStatus.loading, none, none⟩ : CacheState String String).error = none) ∧
    ((⟨CacheStatus.loading, none, none⟩ : CacheState String String).status =
        CacheStatus.error →
      (⟨CacheStatus.loading, none, none⟩ : CacheState String String).error.isSome) ∧
    (((⟨CacheStatus.loading, none, none⟩ : CacheState String String).status =
          CacheStatus.loading ∨
        (⟨CacheStatus.loading, none, none⟩ : CacheState String String).status =
          CacheStatus.cancelled) →
      (⟨CacheStatus.loading, none, none⟩ : CacheState String String).error = none) :=
  cacheState_invariant 2 [Op.load "a"] "a" ⟨CacheStatus.loading, none, none⟩ (by decide)

/-! ### C5: capacity bound and LRU eviction -/

theorem alookup_isSome_iff_mem_keys {κ : Type} [DecidableEq κ] {α : Type}
    (es : List (κ × α)) (k : κ) :
    (alookup es k).isSome ↔ k ∈ es.map Prod.fst := by
  induction es with
  | nil => simp [alookup]
  | cons p rest ih =>
    obtain ⟨k1, v1⟩ := p
    by_cases h : k1 = k
    · subst h
      simp [alookup]
    · have hx : ¬(k = k1) := fun he => h he.symm
      simp [alookup, h, ih, hx]

theorem not_mem_keys_of_alookup_none {κ : Type} [DecidableEq κ] {α : Type}
    (es : List (κ × α)) (k : κ) (h : alookup es k = none) :
    k ∉ es.map Prod.fst := by
  intro hk
  have h2 := (alookup_isSome_iff_mem_keys es k).mpr hk
  rw [h] at h2
  simp at h2

theorem length_aset_of_isSome {κ : Type} [DecidableEq κ] {α : Type}
    (es : List (κ × α)) (k : κ) (v : α) (h : (alookup es k).isSome) :
    (aset es k v).length = es.length := by
  induction es with
  | nil => simp [alookup] at h
  | cons p rest ih =>
    obtain ⟨k1, v1⟩ := p
    by_cases he : k1 = k
    · simp [aset, he]
    · simp only [alookup, if_neg he] at h
      simp [aset, he, ih h]

theorem length_adelete_of_nodup {κ : Type} [DecidableEq κ] {α : Type}
    (es : List (κ × α)) (k : κ) (hnd : (es.map Prod.fst).Nodup)
    (h : (alookup es k).isSome) :
    (adelete es k).length + 1 = es.length := by
  induction es with
  | nil => simp [alookup] at h
  | cons p rest ih =>
    obtain ⟨k1, v1⟩ := p
    simp only [List.map_cons, List.nodup_cons] at hnd
    by_cases he : k1 = k
    · subst he
      have hnone : alookup rest k1 = none := by
        cases hn : alookup rest k1 with
        | none => rfl
        | some w =>
          exfalso
          exact hnd.1 ((alookup_isSome_iff_mem_keys rest k1).mp (by rw [hn]; rfl))
      simp [adelete, adelete_of_alookup_none rest k1 hnone]
    · simp only [alookup, if_neg he] at h
      have h2 := ih hnd.2 h
      simp only [adelete, if_neg he, List.length_cons]
      omega

theorem startLoad_entries_eq {V E : Type} (c : Cache V E) (k : String) :
    ((startLoad c k).1).entries =
      (((touch c.lru k).reverse.filter (fun x => x ≠ k)).take
          ((aset c.entries k (loadingEntry c k)).length - c.lruSize)).foldl adelete
        (aset c.entries k (loadingEntry c k)) := rfl

theorem load_of_alookup_none {V E : Type} (c : Cache V E) (k : String)
    (h : alookup c.entries k = none) : load c k = startLoad c k := by
  unfold load activeTicket
  rw [h]

theorem startLoad_evict_core {V E : Type} (c : Cache V E) (k : String)
    (hinv : CacheInv c) (hfresh : alookup c.entries k = none)
    (hlen : c.entries.length = c.lruSize) (hpos : 1 ≤ c.lruSize) :
    ∃ v, c.lru.getLast? = some v ∧ v ≠ k ∧ (alookup c.entries v).isSome ∧
      ((startLoad c k).1).entries = adelete (aset c.entries k (loadingEntry c k)) v := by
  obtain ⟨hnd, hndl, hmem1, hmem2⟩ := hinv
  have hknotlru : k ∉ c.lru := by
    intro hk
    have h2 := hmem1 k hk
    rw [hfresh] at h2
    simp at h2
  have htouch : touch c.lru k = k :: c.lru := by
    unfold touch
    rw [lerase_of_not_mem c.lru k hknotlru]
  have hset : aset c.entries k (loadingEntry c k) = c.entries ++ [(k, loadingEntry c k)] :=
    aset_of_alookup_none _ _ _ hfresh
  have hlen1 : (aset c.entries k (loadingEntry c k)).length = c.lruSize + 1 := by
    rw [hset]
    simp [hlen]
  have hlrune : c.lru ≠ [] := by
    intro hnil
    cases hEn : c.entries with
    | nil =>
      rw [hEn] at hlen
      simp at hlen
      omega
    | cons p rest =>
      have h3 : p.1 ∈ c.lru := hmem2 p (hEn ▸ List.mem_cons_self p rest)
      rw [hnil] at h3
      cases h3
  cases hrev : c.lru.reverse with
  | nil =>
    exfalso
    apply hlrune
    have h4 := congrArg List.reverse hrev
    simpa using h4
  | cons v tl =>
    have hvlast : c.lru.getLast? = some v := by
      rw [← List.head?_reverse, hrev]
      rfl
    have hvmem : v ∈ c.lru := by
      rw [← List.mem_reverse, hrev]
      exact List.mem_cons_self v tl
    have hvk : v ≠ k := fun he => hknotlru (he ▸ hvmem)
    refine ⟨v, hvlast, hvk, hmem1 v hvmem, ?_⟩
    rw [startLoad_entries_eq, hlen1, htouch]
    have h1 : (k :: c.lru).reverse = c.lru.reverse ++ [k] := by simp
    have hfil : (c.lru.reverse ++ [k]).filter (fun x => x ≠ k) = v :: tl := by
      rw [List.filter_append]
      have h2 : c.lru.reverse.filter (fun x => x ≠ k) = c.lru.reverse := by
        apply List.filter_eq_self.mpr
        intro x hx
        have hxl : x ∈ c.lru := List.mem_reverse.mp hx
        have hxk : x ≠ k := fun he => hknotlru (he ▸ hxl)
        simp [hxk]
      rw [h2, hrev]
      simp
    rw [h1, hfil]
    have hn : c.lruSize + 1 - c.lruSize = 1 := by omega
    rw [hn]
    rfl

theorem length_adelete_aset_full {V E : Type} (c : Cache V E) (k v : String)
    (hinv : CacheInv c) (hE : alookup c.entries k = none)
    (heq : c.entries.length = c.lruSize)
    (hvk : v ≠ k) (hvsome : (alookup c.entries v).isSome) :
    (adelete (aset c.entries k (loadingEntry c k)) v).length = c.lruSize := by
  have hknotkeys := not_mem_keys_of_alookup_none c.entries k hE
  have hkeys1 : ((aset c.entries k (loadingEntry c k)).map Prod.fst).Nodup := by
    rw [aset_of_alookup_none _ _ _ hE, List.map_append]
    simp only [List.map_cons, List.map_nil]
    exact hinv.1.append (List.nodup_singleton k) (List.disjoint_singleton.mpr hknotkeys)
  have hv1 : (alookup (aset c.entries k (loadingEntry c k)) v).isSome := by
    rw [alookup_aset_ne _ _ _ _ hvk]
    exact hvsome
  have h2 := length_adelete_of_nodup _ v hkeys1 hv1
  have hlen1 : (aset c.entries k (loadingEntry c k)).length = c.lruSize + 1 := by
    rw [aset_of_alookup_none _ _ _ hE]
    simp [heq]
  omega

/-- C5: under the store/LRU structural invariants and a positive capacity,
(1) a `load` never leaves more than `lruSize` stored entries when the store
was within bounds before, and (2) loading a fresh key into a full store
evicts exactly the least-recently-touched key `v` (the tail of the recency
order): `v` differs from the inserted key, the store returns to exactly
`lruSize` entries, `read` of `v` afterwards returns `undefined`, the
newly-inserted key is present, and every other stored key survives. -/
theorem lru_bound_and_eviction {V E : Type} (c : Cache V E) (k : String)
    (hinv : CacheInv c) (hpos : 1 ≤ c.lruSize) :
    (c.entries.length ≤ c.lruSize → ((load c k).1).entries.length ≤ c.lruSize) ∧
    (c.entries.length = c.lruSize → alookup c.entries k = none →
      ∀ v, c.lru.getLast? = some v →
        v ≠ k ∧
        ((load c k).1).entries.length = c.lruSize ∧
        read ((load c k).1) v = none ∧
        (read ((load c k).1) k).isSome ∧
        (∀ k2, k2 ≠ v → (alookup c.entries k2).isSome →
          (alookup ((load c k).1).entries k2).isSome)) := by
  constructor
  · intro hle
    unfold load
    cases hT : activeTicket c k with
    | some t => exact hle
    | none =>
      cases hE : alookup c.entries k with
      | some e =>
        have hsome : (alookup c.entries k).isSome := by
          rw [hE]
          rfl
        have hlen1 : (aset c.entries k (loadingEntry c k)).length = c.entries.length :=
          length_aset_of_isSome _ _ _ hsome
        rw [startLoad_entries_eq, hlen1, Nat.sub_eq_zero_of_le hle]
        simp only [List.take_zero, List.foldl_nil]
        rw [hlen1]
        exact hle
      | none =>
        by_cases heq : c.entries.length = c.lruSize
        · obtain ⟨v, hvlast, hvk, hvsome, hent⟩ :=
            startLoad_evict_core c k hinv hE heq hpos
          rw [hent, length_adelete_aset_full c k v hinv hE heq hvk hvsome]
        · have hlt : c.entries.length < c.lruSize := lt_of_le_of_ne hle heq
          have hlen1 : (aset c.entries k (loadingEntry c k)).length =
              c.entries.length + 1 := by
            rw [aset_of_alookup_none _ _ _ hE]
            simp
          rw [startLoad_entries_eq, hlen1, Nat.sub_eq_zero_of_le (by omega)]
          simp only [List.take_zero, List.foldl_nil]
          rw [hlen1]
          omega
  · intro heq hE v hv
    obtain ⟨v0, hvlast, hvk, hvsome, hent⟩ := startLoad_evict_core c k hinv hE heq hpos
    rw [hvlast] at hv
    injection hv with hv
    subst hv
    have hload : load c k = startLoad c k := load_of_alookup_none c k hE
    refine ⟨hvk, ?_, ?_, ?_, ?_⟩
    · rw [hload, hent, length_adelete_aset_full c k v0 hinv hE heq hvk hvsome]
    · rw [hload, read, hent, alookup_adelete_self]
      rfl
    · rw [hload, read, hent,
        alookup_adelete_ne _ _ _ (fun he => hvk he.symm), alookup_aset_self]
      rfl
    · intro k2 hk2v hk2
      rw [hload, hent, alookup_adelete_ne _ _ _ hk2v]
      by_cases hk2k : k2 = k
      · subst hk2k
        rw [alookup_aset_self]
        rfl
      · rw [alookup_aset_ne _ _ _ _ hk2k]
        exact hk2

/-- Witness for C5 at a concrete input: a full one-slot cache holding `"a"`
receives a load of the fresh key `"b"`, and exactly `"a"` is evicted. -/
theorem lru_bound_and_eviction_witness :
    ("a" : String) ≠ "b" ∧
    ((load cFull "b").1).entries.length = cFull.lruSize ∧
    read ((load cFull "b").1) "a" = none ∧
    (read ((load cFull "b").1) "b").isSome ∧
    (∀ k2, k2 ≠ "a" → (alookup cFull.entries k2).isSome →
      (alookup ((load cFull "b").1).entries k2).isSome) :=
  (lru_bound_and_eviction cFull "b" (by unfold CacheInv; decide) (by decide)).2
    (by decide) (by decide) "a" (by decide)

/-! ### Resize-observation utility (embedded from
`src/packages/resize-observer/src/index.tsx`) -/

theorem aset_aset_self {κ : Type} [DecidableEq κ] {α : Type}
    (es : List (κ × α)) (k : κ) (v : α) :
    aset (aset es k v) k v = aset es k v := by
  induction es with
  | nil => simp [aset]
  | cons p rest ih =>
    obtain ⟨k1, v1⟩ := p
    by_cases h : k1 = k
    · simp [aset, h]
    · simp [aset, h, ih]

theorem notifyRound_count (o : ResizeObs) (t cb : Nat) (entries : List Nat)
    (h : alookup o.callbacks t = some cb) :
    (notifyRound o entries).count (t, cb) = entries.count t := by
  induction entries with
  | nil => rfl
  | cons e rest ih =>
    simp only [notifyRound] at ih ⊢
    by_cases he : e = t
    · subst he
      simp [List.filterMap_cons, h, List.count_cons, ih]
    · cases hL : alookup o.callbacks e with
      | none => simp [List.filterMap_cons, hL, List.count_cons, ih, he]
      | some cb2 => simp [List.filterMap_cons, hL, List.count_cons, ih, he]

/-- C7: registering the identical callback reference twice for the same
target is idempotent — the callback map is unchanged by the second
`subscribe`, and a single notification round containing that target once
invokes the callback exactly once, never twice. -/
theorem subscribe_idempotent (o : ResizeObs) (t cb : Nat) (entries : List Nat)
    (h : entries.count t = 1) :
    rsubscribe (rsubscribe o t cb) t cb = rsubscribe o t cb ∧
    (notifyRound (rsubscribe o t cb) entries).count (t, cb) = 1 := by
  constructor
  · unfold rsubscribe
    rw [aset_aset_self]
  · rw [notifyRound_count _ _ _ _ (by unfold rsubscribe; exact alookup_aset_self _ _ _), h]

/-- Witness for C7 at a concrete input: target `5`, callback `7`, a round
delivering one entry for target `5`. -/
theorem subscribe_idempotent_witness :
    rsubscribe (rsubscribe createResizeObserver 5 7) 5 7 =
      rsubscribe createResizeObserver 5 7 ∧
    (notifyRound (rsubscribe createResizeObserver 5 7) [5]).count (5, 7) = 1 :=
  subscribe_idempotent createResizeObserver 5 7 [5] (by decide)

/-- C9: the resize-observation utility lazily constructs a single shared
observer: the first call to `getResizeObserver` creates it, and every
subsequent call returns the identical instance without changing the module
state. -/
theorem getResizeObserver_singleton :
    ((getResizeObserver none).1 = createResizeObserver ∧
      (getResizeObserver none).2 = some createResizeObserver) ∧
    ∀ s : Option ResizeObs,
      (getResizeObserver (getResizeObserver s).2).1 = (getResizeObserver s).1 ∧
      (getResizeObserver (getResizeObserver s).2).2 = (getResizeObserver s).2 := by
  refine ⟨⟨rfl, rfl⟩, ?_⟩
  intro s
  cases s with
  | none => exact ⟨rfl, rfl⟩
  | some o => exact ⟨rfl, rfl⟩

theorem mem_notifyRound (o : ResizeObs) (entries : List Nat) (p : Nat × Nat)
    (h : p ∈ notifyRound o entries) : alookup o.callbacks p.1 = some p.2 := by
  induction entries with
  | nil => cases h
  | cons e rest ih =>
    cases hL : alookup o.callbacks e with
    | none =>
      simp only [notifyRound, List.filterMap_cons, hL, Option.map_none'] at h
      exact ih h
    | some cb =>
      simp only [notifyRound, List.filterMap_cons, hL, Option.map_some'] at h
      rcases List.mem_cons.mp h with h1 | h1
      · subst h1
        exact hL
      · exact ih h1

/-- C10: after `useResizeObserver`'s effect cleanup runs for a target, the
user callback is never invoked again for that subscription: the flag is set,
the target's entry is gone from the callback map, the wrapper drops every
notification — including one already dispatched before cleanup — and no
future notification round dispatches anything for that target. -/
theorem cleanup_silences_callback (s : HookSub) (t : Nat) :
    (effectCleanup s t).didUnsubscribe = true ∧
    alookup (effectCleanup s t).obs.callbacks t = none ∧
    (∀ entry, wrapperInvoke (effectCleanup s t) entry = none) ∧
    (∀ entries p, p ∈ notifyRound (effectCleanup s t).obs entries → p.1 ≠ t) := by
  refine ⟨rfl, alookup_adelete_self _ _, fun entry => rfl, ?_⟩
  intro entries p hp hpt
  have h1 := mem_notifyRound _ _ _ hp
  rw [hpt] at h1
  have h2 : alookup (effectCleanup s t).obs.callbacks t = none := alookup_adelete_self _ _
  rw [h1] at h2
  cases h2

/-- Witness for C10 at a concrete input: a subscription for target `3` with
callback `9` is cleaned up. -/
theorem cleanup_silences_callback_witness :
    (effectCleanup ⟨false, rsubscribe createResizeObserver 3 9⟩ 3).didUnsubscribe = true ∧
    alookup (effectCleanup ⟨false, rsubscribe createResizeObserver 3 9⟩ 3).obs.callbacks 3 =
      none ∧
    (∀ entry,
      wrapperInvoke (effectCleanup ⟨false, rsubscribe createResizeObserver 3 9⟩ 3) entry =
        none) ∧
    (∀ entries p,
      p ∈ notifyRound (effectCleanup ⟨false, rsubscribe createResizeObserver 3 9⟩ 3).obs
          entries →
        p.1 ≠ 3) :=
  cleanup_silences_callback ⟨false, rsubscribe createResizeObserver 3 9⟩ 3

/-! ### C8: subscriber failures are isolated (subscription bus) -/

theorem notifyRun_length {V E : Type} (s : CacheState V E)
    (impls : Nat → CacheState V E → Except String Unit) (cbs : List Nat) :
    (notifyRun s impls cbs).length = cbs.length := by
  induction cbs with
  | nil => rfl
  | cons cb rest ih =>
    cases hr : impls cb s with
    | ok u => simp [notifyRun, hr, ih]
    | error msg => simp [notifyRun, hr, ih]

theorem notifyRun_getElem {V E : Type} (s : CacheState V E)
    (impls : Nat → CacheState V E → Except String Unit) (cbs : List Nat) (i : Nat) :
    (notifyRun s impls cbs)[i]? =
      (cbs[i]?).map (fun cb =>
        match impls cb s with
        | Except.ok _ => none
        | Except.error msg => some msg) := by
  induction cbs generalizing i with
  | nil => simp [notifyRun]
  | cons cb rest ih =>
    cases hr : impls cb s with
    | ok u =>
      cases i with
      | zero => simp [notifyRun, hr]
      | succ j => simp [notifyRun, hr, ih j]
    | error msg =>
      cases i with
      | zero => simp [notifyRun, hr]
      | succ j => simp [notifyRun, hr, ih j]

/-- C8: during a single notification round for a key, a raising subscriber
callback neither prevents the remaining registered callbacks from being
invoked nor changes the cache state: the cache comes back unchanged, every
registered callback contributes exactly one outcome, and the i-th outcome is
exactly the i-th callback's own result on the current state, independent of
any other callback's failure. -/
theorem subscriber_error_isolation {V E : Type} (c : Cache V E) (k : String)
    (impls : Nat → CacheState V E → Except String Unit) :
    (notifySubscribers c k impls).1 = c ∧
    (∀ s, read c k = some s →
      (notifySubscribers c k impls).2.length = ((alookup c.subs k).getD []).length ∧
      ∀ i : Nat, (notifySubscribers c k impls).2[i]? =
        (((alookup c.subs k).getD [])[i]?).map (fun cb =>
          match impls cb s with
          | Except.ok _ => none
          | Except.error msg => some msg)) := by
  constructor
  · cases hR : read c k with
    | none => simp [notifySubscribers, hR]
    | some st => simp [notifySubscribers, hR]
  · intro s hs
    have hN : notifySubscribers c k impls =
        (c, notifyRun s impls ((alookup c.subs k).getD [])) := by
      simp [notifySubscribers, hs]
    rw [hN]
    exact ⟨notifyRun_length _ _ _, fun i => notifyRun_getElem _ _ _ i⟩

/-- Witness for C8 at a concrete input: one registered callback that raises
still yields one collected outcome and an unchanged cache. -/
theorem subscriber_error_isolation_witness :
    (notifySubscribers busDemo "a" busImpls).1 = busDemo ∧
    ((notifySubscribers busDemo "a" busImpls).2.length =
        ((alookup busDemo.subs "a").getD []).length ∧
      ∀ i : Nat, (notifySubscribers busDemo "a" busImpls).2[i]? =
        (((alookup busDemo.subs "a").getD [])[i]?).map (fun cb =>
          match busImpls cb ⟨CacheStatus.loading, none, none⟩ with
          | Except.ok _ => none
          | Except.error msg => some msg)) :=
  ⟨(subscriber_error_isolation busDemo "a" busImpls).1,
    (subscriber_error_isolation busDemo "a" busImpls).2
      ⟨CacheStatus.loading, none, none⟩ (by decide)⟩

end ReactHook
